import Mathlib

/-!
Verification of the Sophgo SG2042 platform drivers: the PLL frequency
solver of the clock driver (`sg2042_get_pll_ctl_setting` and the older
`__mango_get_pll_ctl_setting` revision), the PLL control-word encoding,
the PCIe MSI dispatch routine (`cdns_handle_msi_irq`) and the MSI
hardware-IRQ bitmap allocator (`cdns_pcie_irq_domain_alloc` /
`cdns_pcie_irq_domain_free`).

Machine integers are modelled as `Nat` with an explicit `% 2^32` or
`% 2^64` at every C operation whose result can wrap (the C sources do
all divisions through `do_div`, i.e. unsigned 64-bit floor division,
which coincides with `Nat` division for operands below `2^64`).
A C division whose divisor can be zero is undefined behaviour; the
embedding surfaces that case as an explicit `crash` result instead of
silently using `Nat`'s `x / 0 = 0` convention.
-/

set_option maxRecDepth 2000000

/-! ## Constants of the SG2042 clock driver (part_002 of the sources) -/

def KHZ : Nat := 1000

def MHZ : Nat := KHZ * KHZ

def REFDIV_MIN : Nat := 1

def REFDIV_MAX : Nat := 63

def FBDIV_MIN : Nat := 16

def FBDIV_MAX : Nat := 320

def PLL_FREF_SG2042 : Nat := 25 * MHZ

def PLL_FOUTPOSTDIV_MIN : Nat := 16 * MHZ

def PLL_FOUTPOSTDIV_MAX : Nat := 3200 * MHZ

def PLL_FOUTVCO_MIN : Nat := 800 * MHZ

def PLL_FOUTVCO_MAX : Nat := 3200 * MHZ

/-- Constants of the older `mango` revision in `clk.c`: there the refdiv
loop runs to 64, the fbdiv loop to 321, and the VCO window is the full
output window 16 MHz .. 3200 MHz. -/
def MANGO_REFDIV_MAX : Nat := 64

def MANGO_FBDIV_MAX : Nat := 321

def PLL_FREQ_MIN : Nat := 16 * MHZ

def PLL_FREQ_MAX : Nat := 3200 * MHZ

def U32_MOD : Nat := 2 ^ 32

def U64_MOD : Nat := 2 ^ 64

/-- Source `abs_diff` from `clk.c`: `(a > b) ? (a - b) : (b - a)`. -/
def absDiff (a b : Nat) : Nat := if a > b then a - b else b - a

/-- Source `struct sg2042_pll_ctrl` (identical layout to `struct mango_pll_ctrl`):
the achieved frequency plus the four divider fields. -/
structure PllCtrl where
  freq : Nat
  fbdiv : Nat
  postdiv1 : Nat
  postdiv2 : Nat
  refdiv : Nat
deriving DecidableEq

/-! ## Control-word encode / decode

`sg2042_pll_ctrl_encode` packs the divider fields into one 32-bit word:
fbdiv at bits [27:16] (mask 0xfff), postdiv2 at [14:12] (mask 0x7),
postdiv1 at [10:8] (mask 0x7), refdiv at [5:0] (mask 0x3f).  The older
revision's `ENCODE_PLL_CTRL` macro in `clk.c` packs identically. -/

def sg2042_pll_ctrl_encode (ctrl : PllCtrl) : Nat :=
  ((ctrl.fbdiv &&& 0xfff) <<< 16) ||| ((ctrl.postdiv2 &&& 0x7) <<< 12) |||
    ((ctrl.postdiv1 &&& 0x7) <<< 8) ||| (ctrl.refdiv &&& 0x3f)

/-- Source `sg2042_pll_ctrl_decode`: extracts the four divider fields from a
register value into `ctrl`, leaving `ctrl`'s `freq` field untouched
(the C function only assigns the four divider members). -/
def sg2042_pll_ctrl_decode (reg_value : Nat) (ctrl : PllCtrl) : PllCtrl :=
  ⟨ctrl.freq,
   (reg_value >>> 16) &&& 0xfff,
   (reg_value >>> 8) &&& 0x7,
   (reg_value >>> 12) &&& 0x7,
   reg_value &&& 0x3f⟩

/-- Source macro `ENCODE_PLL_CTRL(fbdiv, p1, p2, refdiv)` from `clk.c`; bit-for-bit the
same packing as `sg2042_pll_ctrl_encode`. -/
def ENCODE_PLL_CTRL (fbdiv p1 p2 refdiv : Nat) : Nat :=
  ((fbdiv &&& 0xfff) <<< 16) ||| ((p2 &&& 0x7) <<< 12) |||
    ((p1 &&& 0x7) <<< 8) ||| (refdiv &&& 0x3f)

/-! ## The postdiv1/postdiv2 derivation -/

/-- The `postdiv1_2` table: every combination `(div1, div2, div1*div2)`
with both dividers in 2..7, ascending in the product. -/
def postdiv1_2 : List (Nat × Nat × Nat) :=
  [(2, 4, 8), (3, 3, 9), (2, 5, 10), (2, 6, 12),
   (2, 7, 14), (3, 5, 15), (4, 4, 16), (3, 6, 18),
   (4, 5, 20), (3, 7, 21), (4, 6, 24), (5, 5, 25),
   (4, 7, 28), (5, 6, 30), (5, 7, 35), (6, 6, 36),
   (6, 7, 42), (7, 7, 49)]

/-- Source `sg2042_pll_get_postdiv_1_2` (same computation as the older
`__pll_get_postdiv_1_2` / `__mango_pll_get_postdiv_1_2` in `clk.c`):
computes `tmp0 = prate / refdiv * fbdiv / rate` in u64 arithmetic and
either takes `(tmp0, 1)` directly (when `tmp0 <= 7`), or looks up the
first table entry whose product is `>= tmp0`, returning the entry's
second element as postdiv1 and its first as postdiv2; `none` models the
non-zero error return when the product exceeds every table entry. -/
def sg2042_pll_get_postdiv_1_2 (rate prate fbdiv refdiv : Nat) :
    Option (Nat × Nat) :=
  let tmp0 := prate / refdiv * fbdiv % U64_MOD / rate
  if tmp0 ≤ 7 then
    some (tmp0, 1)
  else
    match postdiv1_2.find? (fun e => decide (tmp0 ≤ e.2.2)) with
    | some e => some (e.2.1, e.1)
    | none => none

/-! ## Bitwise helper lemmas for the encode/decode proof -/

theorem lor_two_pow_mul_add (i a b : Nat) (hb : b < 2 ^ i) :
    ((2 ^ i * a) ||| b) = 2 ^ i * a + b := by
  apply Nat.eq_of_testBit_eq
  intro j
  rw [Nat.testBit_lor, Nat.testBit_mul_pow_two, Nat.testBit_mul_pow_two_add a hb j]
  by_cases hj : j < i
  · have : ¬ j ≥ i := by omega
    simp [hj, this]
  · have hbj : b.testBit j = false := by
      apply Nat.testBit_eq_false_of_lt
      calc b < 2 ^ i := hb
        _ ≤ 2 ^ j := Nat.pow_le_pow_right (by norm_num) (by omega)
    have : j ≥ i := by omega
    simp [hj, this, hbj]

theorem encode_as_sum (f p2 p1 r : Nat) :
    (((f &&& 0xfff) <<< 16) ||| ((p2 &&& 0x7) <<< 12) |||
      ((p1 &&& 0x7) <<< 8) ||| (r &&& 0x3f)) =
      f % 2 ^ 12 * 2 ^ 16 + p2 % 2 ^ 3 * 2 ^ 12 + p1 % 2 ^ 3 * 2 ^ 8 + r % 2 ^ 6 := by
  have hf : (0xfff : Nat) = 2 ^ 12 - 1 := by norm_num
  have h7 : (0x7 : Nat) = 2 ^ 3 - 1 := by norm_num
  have h3f : (0x3f : Nat) = 2 ^ 6 - 1 := by norm_num
  rw [hf, h7, h3f, Nat.and_pow_two_sub_one_eq_mod, Nat.and_pow_two_sub_one_eq_mod,
    Nat.and_pow_two_sub_one_eq_mod, Nat.and_pow_two_sub_one_eq_mod,
    Nat.shiftLeft_eq, Nat.shiftLeft_eq, Nat.shiftLeft_eq]
  rw [Nat.lor_assoc, Nat.lor_assoc]
  rw [Nat.mul_comm (p1 % 2 ^ 3) (2 ^ 8), lor_two_pow_mul_add 8 (p1 % 2 ^ 3) (r % 2 ^ 6)
    (by have := Nat.mod_lt r (y := 2 ^ 6) (by norm_num); omega)]
  rw [Nat.mul_comm (p2 % 2 ^ 3) (2 ^ 12), lor_two_pow_mul_add 12 (p2 % 2 ^ 3)
    (2 ^ 8 * (p1 % 2 ^ 3) + r % 2 ^ 6)
    (by have h1 := Nat.mod_lt p1 (y := 2 ^ 3) (by norm_num)
        have h2 := Nat.mod_lt r (y := 2 ^ 6) (by norm_num)
        omega)]
  rw [Nat.mul_comm (f % 2 ^ 12) (2 ^ 16), lor_two_pow_mul_add 16 (f % 2 ^ 12)
    (2 ^ 12 * (p2 % 2 ^ 3) + (2 ^ 8 * (p1 % 2 ^ 3) + r % 2 ^ 6))
    (by have h1 := Nat.mod_lt p2 (y := 2 ^ 3) (by norm_num)
        have h2 := Nat.mod_lt p1 (y := 2 ^ 3) (by norm_num)
        have h3 := Nat.mod_lt r (y := 2 ^ 6) (by norm_num)
        omega)]
  ring

/-- C3: for every `PllCtrl` whose fields lie within their declared bit
widths (fbdiv 12 bits, postdiv1/postdiv2 3 bits, refdiv 6 bits),
decoding the encoded control word recovers the same fields:
`sg2042_pll_ctrl_decode (sg2042_pll_ctrl_encode p) p = p`, the encoded
word fits in 32 bits, and the packing positions are those of the claim
(fbdiv at [27:16], postdiv2 at [14:12], postdiv1 at [10:8], refdiv at
[5:0], as fixed by the definitions). -/
theorem C3_encode_decode_roundtrip (p : PllCtrl)
    (hf : p.fbdiv < 2 ^ 12) (h1 : p.postdiv1 < 2 ^ 3)
    (h2 : p.postdiv2 < 2 ^ 3) (hr : p.refdiv < 2 ^ 6) :
    sg2042_pll_ctrl_decode (sg2042_pll_ctrl_encode p) p = p ∧
      sg2042_pll_ctrl_encode p < 2 ^ 32 ∧
      ENCODE_PLL_CTRL p.fbdiv p.postdiv1 p.postdiv2 p.refdiv =
        sg2042_pll_ctrl_encode p := by
  obtain ⟨fr, f, d1, d2, r⟩ := p
  simp only at hf h1 h2 hr
  have henc : sg2042_pll_ctrl_encode ⟨fr, f, d1, d2, r⟩ =
      f % 2 ^ 12 * 2 ^ 16 + d2 % 2 ^ 3 * 2 ^ 12 + d1 % 2 ^ 3 * 2 ^ 8 + r % 2 ^ 6 := by
    unfold sg2042_pll_ctrl_encode
    exact encode_as_sum f d2 d1 r
  have hfm : f % 2 ^ 12 = f := Nat.mod_eq_of_lt hf
  have h1m : d1 % 2 ^ 3 = d1 := Nat.mod_eq_of_lt h1
  have h2m : d2 % 2 ^ 3 = d2 := Nat.mod_eq_of_lt h2
  have hrm : r % 2 ^ 6 = r := Nat.mod_eq_of_lt hr
  refine ⟨?_, ?_, ?_⟩
  · unfold sg2042_pll_ctrl_decode
    rw [henc, hfm, h1m, h2m, hrm]
    have e1 : (0xfff : Nat) = 2 ^ 12 - 1 := by norm_num
    have e2 : (0x7 : Nat) = 2 ^ 3 - 1 := by norm_num
    have e3 : (0x3f : Nat) = 2 ^ 6 - 1 := by norm_num
    rw [e1, e2, e3, Nat.shiftRight_eq_div_pow, Nat.shiftRight_eq_div_pow,
      Nat.shiftRight_eq_div_pow, Nat.and_pow_two_sub_one_eq_mod,
      Nat.and_pow_two_sub_one_eq_mod, Nat.and_pow_two_sub_one_eq_mod,
      Nat.and_pow_two_sub_one_eq_mod]
    congr 1 <;> omega
  · rw [henc]; omega
  · unfold ENCODE_PLL_CTRL sg2042_pll_ctrl_encode
    rfl

/-- C3 witness: the round trip evaluated at the concrete parameter set
fbdiv = 128, postdiv1 = 2, postdiv2 = 3, refdiv = 1. -/
theorem C3_encode_decode_roundtrip_witness :
    sg2042_pll_ctrl_decode
        (sg2042_pll_ctrl_encode ⟨0, 128, 2, 3, 1⟩) ⟨0, 128, 2, 3, 1⟩ =
        ⟨0, 128, 2, 3, 1⟩ ∧
      sg2042_pll_ctrl_encode ⟨0, 128, 2, 3, 1⟩ < 2 ^ 32 ∧
      ENCODE_PLL_CTRL 128 2 3 1 = sg2042_pll_ctrl_encode ⟨0, 128, 2, 3, 1⟩ :=
  C3_encode_decode_roundtrip ⟨0, 128, 2, 3, 1⟩ (by norm_num) (by norm_num)
    (by norm_num) (by norm_num)

/-! ## The SG2042 PLL rate solver (`sg2042_get_pll_ctl_setting`)

The two nested C loops are embedded as structural recursions over the
explicit lists of refdiv values (`[1..63]`) and fbdiv values
(`[16..320]`).  A loop iteration either skips (constraint violated or
postdiv lookup failed), crashes (the derived postdiv product is zero,
so the C code divides by zero — undefined behaviour), updates the
running best candidate, or returns early on an exact frequency match. -/

inductive LoopRes where
  | crash
  | exact (b : PllCtrl)
  | cont (b : PllCtrl)
deriving DecidableEq

/-- The fbdiv (inner) loop of `sg2042_get_pll_ctl_setting`:
`foutvco = parent_rate * fbdiv / refdiv` in u64 arithmetic, VCO window
check, postdiv derivation, `foutpostdiv = foutvco / (postdiv1*postdiv2)`
and the running-best update with early return on an exact hit. -/
def fbdivLoop (req prate refdiv : Nat) (best : PllCtrl) : List Nat → LoopRes
  | [] => .cont best
  | fbdiv :: rest =>
    let foutvco := prate * fbdiv % U64_MOD / refdiv
    if foutvco < PLL_FOUTVCO_MIN ∨ foutvco > PLL_FOUTVCO_MAX then
      fbdivLoop req prate refdiv best rest
    else
      match sg2042_pll_get_postdiv_1_2 req prate fbdiv refdiv with
      | none => fbdivLoop req prate refdiv best rest
      | some (p1, p2) =>
        if p1 * p2 = 0 then .crash
        else
          let foutpostdiv := foutvco / (p1 * p2)
          if absDiff foutpostdiv req < absDiff best.freq req then
            if foutpostdiv = req then .exact ⟨foutpostdiv, fbdiv, p1, p2, refdiv⟩
            else fbdivLoop req prate refdiv ⟨foutpostdiv, fbdiv, p1, p2, refdiv⟩ rest
          else fbdivLoop req prate refdiv best rest

/-- The refdiv (outer) loop: the hardware stability check
`parent_rate / refdiv <= 10` skips a refdiv value before the fbdiv loop
is entered at all. -/
def refdivLoop (req prate : Nat) : PllCtrl → List Nat → LoopRes
  | best, [] => .cont best
  | best, refdiv :: rest =>
    if prate / refdiv ≤ 10 then refdivLoop req prate best rest
    else
      match fbdivLoop req prate refdiv best (List.range' FBDIV_MIN 305) with
      | .crash => .crash
      | .exact b => .exact b
      | .cont b => refdivLoop req prate b rest

inductive SolveRes where
  | divByZero
  | einval
  | found (b : PllCtrl)
deriving DecidableEq

/-- Source `sg2042_get_pll_ctl_setting`: validates the inputs
(`parent_rate == PLL_FREF_SG2042`, requested rate within the output
window), zeroes `best` and runs the search; `-EINVAL` (`einval`) is
returned when validation fails or no candidate ever improved on the
zeroed best. -/
def sg2042_get_pll_ctl_setting (req_rate parent_rate : Nat) : SolveRes :=
  if parent_rate ≠ PLL_FREF_SG2042 then .einval
  else if req_rate < PLL_FOUTPOSTDIV_MIN ∨ req_rate > PLL_FOUTPOSTDIV_MAX then .einval
  else
    match refdivLoop req_rate parent_rate ⟨0, 0, 0, 0, 0⟩ (List.range' REFDIV_MIN 63) with
    | .crash => .divByZero
    | .exact b => .found b
    | .cont b => if b.freq = 0 then .einval else .found b

/-! ## Step-by-step view of the search

`pllStepOf` is the outcome of the single loop body at one
`(refdiv, fbdiv)` pair, computed from the loop-invariant inputs only;
the loops are then folds over the list of steps, which makes the
best-candidate invariant provable by one induction. -/

inductive PllStep where
  | skip
  | crash
  | cand (c : PllCtrl)
deriving DecidableEq

def pllStepOf (req prate refdiv fbdiv : Nat) : PllStep :=
  let foutvco := prate * fbdiv % U64_MOD / refdiv
  if foutvco < PLL_FOUTVCO_MIN ∨ foutvco > PLL_FOUTVCO_MAX then .skip
  else
    match sg2042_pll_get_postdiv_1_2 req prate fbdiv refdiv with
    | none => .skip
    | some (p1, p2) =>
      if p1 * p2 = 0 then .crash
      else .cand ⟨foutvco / (p1 * p2), fbdiv, p1, p2, refdiv⟩

def bestFold (req : Nat) : PllCtrl → List PllStep → LoopRes
  | best, [] => .cont best
  | best, .skip :: rest => bestFold req best rest
  | _, .crash :: _ => .crash
  | best, .cand c :: rest =>
    if absDiff c.freq req < absDiff best.freq req then
      if c.freq = req then .exact c else bestFold req c rest
    else bestFold req best rest

/-- The full list of steps the search executes, in search order: refdiv
ascending, and for each refdiv that passes the stability check, fbdiv
ascending. -/
def pllSteps (req prate : Nat) : List PllStep :=
  (List.range' REFDIV_MIN 63).flatMap (fun refdiv =>
    if prate / refdiv ≤ 10 then []
    else (List.range' FBDIV_MIN 305).map (fun fbdiv => pllStepOf req prate refdiv fbdiv))

/-- The candidates the search admits (the steps that reach the
best-update comparison), in search order. -/
def pllCandidates (req prate : Nat) : List PllCtrl :=
  (pllSteps req prate).filterMap (fun s =>
    match s with
    | .cand c => some c
    | _ => none)

theorem fbdivLoop_eq_bestFold (req prate refdiv : Nat) :
    ∀ (l : List Nat) (best : PllCtrl),
      fbdivLoop req prate refdiv best l =
        bestFold req best (l.map (pllStepOf req prate refdiv)) := by
  intro l
  induction l with
  | nil => intro best; rfl
  | cons fbdiv rest ih =>
    intro best
    rw [fbdivLoop, List.map_cons, pllStepOf]
    by_cases hv : prate * fbdiv % U64_MOD / refdiv < PLL_FOUTVCO_MIN ∨
        prate * fbdiv % U64_MOD / refdiv > PLL_FOUTVCO_MAX
    · simp only [hv, if_true, ih, bestFold]
    · simp only [hv, if_false]
      cases hpd : sg2042_pll_get_postdiv_1_2 req prate fbdiv refdiv with
      | none => simp only [ih, bestFold]
      | some pd =>
        obtain ⟨p1, p2⟩ := pd
        by_cases hz : p1 * p2 = 0
        · simp only [hz, if_true, bestFold]
        · simp only [hz, if_false]
          by_cases hlt : absDiff (prate * fbdiv % U64_MOD / refdiv / (p1 * p2)) req <
              absDiff best.freq req
          · simp only [hlt, if_true, bestFold]
            by_cases he : prate * fbdiv % U64_MOD / refdiv / (p1 * p2) = req
            · simp only [he, if_true]
            · simp only [he, if_false, ih]
          · simp only [hlt, if_false, ih, bestFold]

theorem bestFold_append (req : Nat) :
    ∀ (s t : List PllStep) (best : PllCtrl),
      bestFold req best (s ++ t) =
        match bestFold req best s with
        | .cont b => bestFold req b t
        | x => x := by
  intro s
  induction s with
  | nil => intro t best; rfl
  | cons hd tl ih =>
    intro t best
    cases hd with
    | skip => rw [List.cons_append, bestFold, bestFold, ih]
    | crash => rfl
    | cand c =>
      rw [List.cons_append, bestFold, bestFold]
      by_cases hlt : absDiff c.freq req < absDiff best.freq req
      · simp only [hlt, if_true]
        by_cases he : c.freq = req
        · simp only [he, if_true]
        · simp only [he, if_false, ih]
      · simp only [hlt, if_false, ih]

theorem refdivLoop_eq_bestFold (req prate : Nat) :
    ∀ (l : List Nat) (best : PllCtrl),
      refdivLoop req prate best l =
        bestFold req best (l.flatMap (fun refdiv =>
          if prate / refdiv ≤ 10 then []
          else (List.range' FBDIV_MIN 305).map (fun fbdiv => pllStepOf req prate refdiv fbdiv))) := by
  intro l
  induction l with
  | nil => intro best; rfl
  | cons refdiv rest ih =>
    intro best
    rw [refdivLoop, List.flatMap_cons, bestFold_append]
    by_cases hg : prate / refdiv ≤ 10
    · simp only [hg, if_true, List.nil_append, ih, bestFold]
    · simp only [hg, if_false, fbdivLoop_eq_bestFold]
      cases bestFold req best ((List.range' FBDIV_MIN 305).map (pllStepOf req prate refdiv)) with
      | crash => rfl
      | exact b => rfl
      | cont b => exact ih b

def candsOf (l : List PllStep) : List PllCtrl :=
  l.filterMap (fun s =>
    match s with
    | .cand c => some c
    | _ => none)

theorem pllCandidates_eq (req prate : Nat) :
    pllCandidates req prate = candsOf (pllSteps req prate) := rfl

/-- The invariant of the running-best fold: on a crash-free step list the
fold ends (normally or by early exit) with a candidate that is either
the initial best or an admitted candidate that strictly improved on it,
and that is at least as close to `req` as every admitted candidate. -/
theorem bestFold_spec (req : Nat) :
    ∀ (l : List PllStep) (best : PllCtrl), PllStep.crash ∉ l →
      ∃ b, ((bestFold req best l = .exact b ∧ b.freq = req ∧ b ∈ candsOf l) ∨
          bestFold req best l = .cont b) ∧
        (b = best ∨ (b ∈ candsOf l ∧ absDiff b.freq req < absDiff best.freq req)) ∧
        (∀ c ∈ candsOf l, absDiff b.freq req ≤ absDiff c.freq req) := by
  intro l
  induction l with
  | nil =>
    intro best _
    exact ⟨best, Or.inr rfl, Or.inl rfl, by intro c hc; simp [candsOf] at hc⟩
  | cons hd tl ih =>
    intro best hmem
    have hhd : hd ≠ PllStep.crash := by
      intro h; exact hmem (h ▸ List.mem_cons_self hd tl)
    have htl : PllStep.crash ∉ tl := fun h => hmem (List.mem_cons_of_mem hd h)
    cases hd with
    | crash => exact absurd rfl hhd
    | skip =>
      obtain ⟨b, hres, horig, hmin⟩ := ih best htl
      refine ⟨b, ?_, ?_, ?_⟩
      · simpa [bestFold, candsOf] using hres
      · simpa [candsOf] using horig
      · intro c hc
        exact hmin c (by simpa [candsOf] using hc)
    | cand c0 =>
      have hcands : candsOf (PllStep.cand c0 :: tl) = c0 :: candsOf tl := by
        simp [candsOf]
      by_cases hlt : absDiff c0.freq req < absDiff best.freq req
      · by_cases he : c0.freq = req
        · refine ⟨c0, ?_, ?_, ?_⟩
          · left
            refine ⟨?_, he, hcands ▸ List.mem_cons_self c0 (candsOf tl)⟩
            rw [bestFold, if_pos hlt, if_pos he]
          · right
            exact ⟨hcands ▸ List.mem_cons_self c0 (candsOf tl), hlt⟩
          · intro c hc
            rw [he]
            simp [absDiff]
        · obtain ⟨b, hres, horig, hmin⟩ := ih c0 htl
          refine ⟨b, ?_, ?_, ?_⟩
          · rw [bestFold, if_pos hlt, if_neg he]
            rcases hres with ⟨hx, hf, hm⟩ | hx
            · exact Or.inl ⟨hx, hf, hcands ▸ List.mem_cons_of_mem c0 hm⟩
            · exact Or.inr hx
          · right
            constructor
            · rw [hcands]
              rcases horig with h | h
              · exact h ▸ List.mem_cons_self c0 (candsOf tl)
              · exact List.mem_cons_of_mem c0 h.1
            · rcases horig with h | h
              · exact h ▸ hlt
              · exact lt_trans h.2 hlt
          · intro c hc
            rw [hcands] at hc
            rcases List.mem_cons.mp hc with h | h
            · subst h
              rcases horig with h' | h'
              · exact le_of_eq (h' ▸ rfl)
              · exact le_of_lt h'.2
            · exact hmin c h
      · obtain ⟨b, hres, horig, hmin⟩ := ih best htl
        refine ⟨b, ?_, ?_, ?_⟩
        · rw [bestFold, if_neg hlt]
          rcases hres with ⟨hx, hf, hm⟩ | hx
          · exact Or.inl ⟨hx, hf, hcands ▸ List.mem_cons_of_mem c0 hm⟩
          · exact Or.inr hx
        · rcases horig with h | h
          · exact Or.inl h
          · exact Or.inr ⟨hcands ▸ List.mem_cons_of_mem c0 h.1, h.2⟩
        · intro c hc
          rw [hcands] at hc
          rcases List.mem_cons.mp hc with h | h
          · subst h
            have hble : absDiff b.freq req ≤ absDiff best.freq req := by
              rcases horig with h' | h'
              · exact le_of_eq (h' ▸ rfl)
              · exact le_of_lt h'.2
            exact le_trans hble (le_of_not_lt hlt)
          · exact hmin c h

theorem absDiff_zero_left (n : Nat) : absDiff 0 n = n := by
  simp [absDiff]

theorem absDiff_self (n : Nat) : absDiff n n = n - n := by
  simp [absDiff]

/-! ## Claim C1, as stated

The spec's claim quantifies over "all parameter combinations satisfying
the VCO-range and input-stability constraints", with the declared field
ranges refdiv 1..64, fbdiv 16..321, postdiv1/postdiv2 1..7, the VCO
window 800 MHz..3200 MHz and the 10 MHz stability floor. -/

def specComboOK (refdiv fbdiv p1 p2 : Nat) : Prop :=
  1 ≤ refdiv ∧ refdiv ≤ 64 ∧ 16 ≤ fbdiv ∧ fbdiv ≤ 321 ∧
    1 ≤ p1 ∧ p1 ≤ 7 ∧ 1 ≤ p2 ∧ p2 ≤ 7 ∧
    PLL_FOUTVCO_MIN ≤ PLL_FREF_SG2042 * fbdiv / refdiv ∧
    PLL_FREF_SG2042 * fbdiv / refdiv ≤ PLL_FOUTVCO_MAX ∧
    10 * MHZ < PLL_FREF_SG2042 / refdiv

def specComboFout (refdiv fbdiv p1 p2 : Nat) : Nat :=
  PLL_FREF_SG2042 * fbdiv / refdiv / (p1 * p2)

/-- The C1 claim at one target rate: the solver either returns a
parameter set whose recomputed output frequency is closest to the
target among all constraint-satisfying combinations, or reports no
solution exactly when no combination satisfies the constraints. -/
def pllClaimC1 (req : Nat) : Prop :=
  (∃ b, sg2042_get_pll_ctl_setting req PLL_FREF_SG2042 = .found b ∧
      specComboOK b.refdiv b.fbdiv b.postdiv1 b.postdiv2 ∧
      b.freq = specComboFout b.refdiv b.fbdiv b.postdiv1 b.postdiv2 ∧
      ∀ refdiv fbdiv p1 p2, specComboOK refdiv fbdiv p1 p2 →
        absDiff b.freq req ≤ absDiff (specComboFout refdiv fbdiv p1 p2) req) ∨
  (sg2042_get_pll_ctl_setting req PLL_FREF_SG2042 = .einval ∧
    ¬ ∃ refdiv fbdiv p1 p2, specComboOK refdiv fbdiv p1 p2)

/-- C1 counterexample: at the in-range target rate 1 GHz (the spec's own
worked example) the solver neither returns a parameter set nor reports
no solution — at refdiv = 1, fbdiv = 32 the derived postdiv product is
zero and the C code divides by zero. -/
theorem C1_solver_counterexample : ¬ pllClaimC1 1000000000 := by
  have heval : sg2042_get_pll_ctl_setting 1000000000 PLL_FREF_SG2042 = .divByZero := by
    decide
  intro h
  rcases h with ⟨b, hfound, _⟩ | ⟨heinval, _⟩
  · rw [heval] at hfound
    exact SolveRes.noConfusion hfound
  · rw [heval] at heinval
    exact SolveRes.noConfusion heinval

/-- C1 amended: for an in-range target rate at the fixed 25 MHz
reference, as long as no admitted `(refdiv, fbdiv)` pair derives a zero
postdiv product (no division by zero), the solver returns a parameter
set drawn from the candidates its search admits — one table-derived
postdiv pair per `(refdiv, fbdiv)` passing the VCO and stability
checks — that minimizes `|freq - target|` over those candidates, and it
returns no-solution exactly when no admitted candidate is strictly
closer to the target than the zero-initialized best. -/
theorem C1_solver_amended (req : Nat)
    (h1 : PLL_FOUTPOSTDIV_MIN ≤ req) (h2 : req ≤ PLL_FOUTPOSTDIV_MAX)
    (hc : PllStep.crash ∉ pllSteps req PLL_FREF_SG2042) :
    (∀ b, sg2042_get_pll_ctl_setting req PLL_FREF_SG2042 = .found b →
        b ∈ pllCandidates req PLL_FREF_SG2042 ∧
        ∀ c ∈ pllCandidates req PLL_FREF_SG2042,
          absDiff b.freq req ≤ absDiff c.freq req) ∧
    (sg2042_get_pll_ctl_setting req PLL_FREF_SG2042 = .einval ↔
        ∀ c ∈ pllCandidates req PLL_FREF_SG2042, req ≤ absDiff c.freq req) := by
  have hreqpos : 0 < req := by
    have : PLL_FOUTPOSTDIV_MIN = 16000000 := rfl
    omega
  have hsolve : sg2042_get_pll_ctl_setting req PLL_FREF_SG2042 =
      match refdivLoop req PLL_FREF_SG2042 ⟨0, 0, 0, 0, 0⟩ (List.range' REFDIV_MIN 63) with
      | .crash => .divByZero
      | .exact b => .found b
      | .cont b => if b.freq = 0 then .einval else .found b := by
    rw [sg2042_get_pll_ctl_setting, if_neg (by simp), if_neg (by omega)]
  have hloop : refdivLoop req PLL_FREF_SG2042 ⟨0, 0, 0, 0, 0⟩ (List.range' REFDIV_MIN 63) =
      bestFold req ⟨0, 0, 0, 0, 0⟩ (pllSteps req PLL_FREF_SG2042) := by
    rw [refdivLoop_eq_bestFold]
    rfl
  obtain ⟨b, hres, horig, hmin⟩ :=
    bestFold_spec req (pllSteps req PLL_FREF_SG2042) ⟨0, 0, 0, 0, 0⟩ hc
  have hinit : absDiff (PllCtrl.mk 0 0 0 0 0).freq req = req := absDiff_zero_left req
  rw [hinit] at horig
  have hpc : pllCandidates req PLL_FREF_SG2042 = candsOf (pllSteps req PLL_FREF_SG2042) :=
    pllCandidates_eq req PLL_FREF_SG2042
  rcases hres with ⟨hx, hf, hm⟩ | hx
  · have hsolve2 : sg2042_get_pll_ctl_setting req PLL_FREF_SG2042 = .found b := by
      rw [hsolve, hloop, hx]
    constructor
    · intro b' hb'
      rw [hsolve2] at hb'
      obtain rfl : b = b' := SolveRes.found.inj hb'
      rw [hpc]
      exact ⟨hm, hmin⟩
    · rw [hsolve2]
      constructor
      · intro hcontra
        exact SolveRes.noConfusion hcontra
      · intro hall
        exfalso
        have := hall b (hpc ▸ hm)
        rw [hf] at this
        have hz : absDiff req req = 0 := by simp [absDiff]
        omega
  · by_cases hz : b.freq = 0
    · have hsolve2 : sg2042_get_pll_ctl_setting req PLL_FREF_SG2042 = .einval := by
        rw [hsolve, hloop, hx]
        simp [hz]
      constructor
      · intro b' hb'
        rw [hsolve2] at hb'
        exact SolveRes.noConfusion hb'
      · rw [hsolve2]
        constructor
        · intro _ c hcmem
          have := hmin c (hpc ▸ hcmem)
          rw [hz, absDiff_zero_left] at this
          exact this
        · intro _
          rfl
    · have hsolve2 : sg2042_get_pll_ctl_setting req PLL_FREF_SG2042 = .found b := by
        rw [hsolve, hloop, hx]
        simp [hz]
      have hbmem : b ∈ candsOf (pllSteps req PLL_FREF_SG2042) ∧ absDiff b.freq req < req := by
        rcases horig with h | h
        · exfalso
          apply hz
          rw [h]
        · exact h
      constructor
      · intro b' hb'
        rw [hsolve2] at hb'
        obtain rfl : b = b' := SolveRes.found.inj hb'
        rw [hpc]
        exact ⟨hbmem.1, hmin⟩
      · rw [hsolve2]
        constructor
        · intro hcontra
          exact SolveRes.noConfusion hcontra
        · intro hall
          exfalso
          have := hall b (hpc ▸ hbmem.1)
          have := hbmem.2
          omega

theorem bestFold_mem (req : Nat) :
    ∀ (l : List PllStep) (best b : PllCtrl),
      (bestFold req best l = .exact b ∨ bestFold req best l = .cont b) →
      b = best ∨ b ∈ candsOf l := by
  intro l
  induction l with
  | nil =>
    intro best b h
    rcases h with h | h
    · exact LoopRes.noConfusion h
    · exact Or.inl (LoopRes.cont.inj h).symm
  | cons hd tl ih =>
    intro best b h
    cases hd with
    | skip =>
      rw [bestFold] at h
      rcases ih best b h with h' | h'
      · exact Or.inl h'
      · exact Or.inr (by simpa [candsOf] using h')
    | crash =>
      rw [bestFold] at h
      rcases h with h | h
      · exact LoopRes.noConfusion h
      · exact LoopRes.noConfusion h
    | cand c0 =>
      have hcands : candsOf (PllStep.cand c0 :: tl) = c0 :: candsOf tl := by
        simp [candsOf]
      rw [bestFold] at h
      by_cases hlt : absDiff c0.freq req < absDiff best.freq req
      · rw [if_pos hlt] at h
        by_cases he : c0.freq = req
        · rw [if_pos he] at h
          rcases h with h | h
          · exact Or.inr (hcands ▸ ((LoopRes.exact.inj h) ▸ List.mem_cons_self c0 (candsOf tl)))
          · exact LoopRes.noConfusion h
        · rw [if_neg he] at h
          rcases ih c0 b h with h' | h'
          · exact Or.inr (hcands ▸ (h' ▸ List.mem_cons_self c0 (candsOf tl)))
          · exact Or.inr (hcands ▸ List.mem_cons_of_mem c0 h')
      · rw [if_neg hlt] at h
        rcases ih best b h with h' | h'
        · exact Or.inl h'
        · exact Or.inr (hcands ▸ List.mem_cons_of_mem c0 h')

theorem pllStepOf_cand_fields (req prate refdiv fbdiv : Nat) (c : PllCtrl)
    (h : pllStepOf req prate refdiv fbdiv = .cand c) :
    c.refdiv = refdiv ∧ c.fbdiv = fbdiv := by
  unfold pllStepOf at h
  by_cases hv : prate * fbdiv % U64_MOD / refdiv < PLL_FOUTVCO_MIN ∨
      prate * fbdiv % U64_MOD / refdiv > PLL_FOUTVCO_MAX
  · rw [if_pos hv] at h
    exact PllStep.noConfusion h
  · rw [if_neg hv] at h
    rcases hpd : sg2042_pll_get_postdiv_1_2 req prate fbdiv refdiv with _ | ⟨p1, p2⟩
    · rw [hpd] at h
      exact PllStep.noConfusion h
    · rw [hpd] at h
      simp only at h
      by_cases hz : p1 * p2 = 0
      · rw [if_pos hz] at h
        exact PllStep.noConfusion h
      · rw [if_neg hz] at h
        have := PllStep.cand.inj h
        rw [← this]
        exact ⟨rfl, rfl⟩

theorem pllCandidates_refdiv_guard (req prate : Nat) (c : PllCtrl)
    (h : c ∈ pllCandidates req prate) :
    10 < prate / c.refdiv := by
  rw [pllCandidates_eq] at h
  simp only [candsOf, List.mem_filterMap] at h
  obtain ⟨s, hs, hsc⟩ := h
  have hsc' : s = .cand c := by
    cases s with
    | skip => exact Option.noConfusion hsc
    | crash => exact Option.noConfusion hsc
    | cand c' => rw [Option.some.inj hsc]
  subst hsc'
  simp only [pllSteps, List.mem_flatMap] at hs
  obtain ⟨refdiv, _, hstep⟩ := hs
  by_cases hg : prate / refdiv ≤ 10
  · rw [if_pos hg] at hstep
    exact absurd hstep (List.not_mem_nil _)
  · rw [if_neg hg] at hstep
    simp only [List.mem_map] at hstep
    obtain ⟨fbdiv, _, hcand⟩ := hstep
    have := (pllStepOf_cand_fields req prate refdiv fbdiv c hcand).1
    rw [this]
    omega

theorem bestFold_exact_freq (req : Nat) :
    ∀ (l : List PllStep) (best b : PllCtrl),
      bestFold req best l = .exact b → b.freq = req ∧ b ∈ candsOf l := by
  intro l
  induction l with
  | nil =>
    intro best b h
    exact LoopRes.noConfusion h
  | cons hd tl ih =>
    intro best b h
    cases hd with
    | skip =>
      rw [bestFold] at h
      obtain ⟨h1, h2⟩ := ih best b h
      exact ⟨h1, by simpa [candsOf] using h2⟩
    | crash =>
      rw [bestFold] at h
      exact LoopRes.noConfusion h
    | cand c0 =>
      have hcands : candsOf (PllStep.cand c0 :: tl) = c0 :: candsOf tl := by
        simp [candsOf]
      rw [bestFold] at h
      by_cases hlt : absDiff c0.freq req < absDiff best.freq req
      · rw [if_pos hlt] at h
        by_cases he : c0.freq = req
        · rw [if_pos he] at h
          obtain rfl : c0 = b := LoopRes.exact.inj h
          exact ⟨he, hcands ▸ List.mem_cons_self c0 (candsOf tl)⟩
        · rw [if_neg he] at h
          obtain ⟨h1, h2⟩ := ih c0 b h
          exact ⟨h1, hcands ▸ List.mem_cons_of_mem c0 h2⟩
      · rw [if_neg hlt] at h
        obtain ⟨h1, h2⟩ := ih best b h
        exact ⟨h1, hcands ▸ List.mem_cons_of_mem c0 h2⟩

theorem solve_found_mem (req prate : Nat) (b : PllCtrl)
    (h : sg2042_get_pll_ctl_setting req prate = .found b) :
    b ∈ pllCandidates req prate := by
  unfold sg2042_get_pll_ctl_setting at h
  by_cases hp : prate ≠ PLL_FREF_SG2042
  · rw [if_pos hp] at h
    exact SolveRes.noConfusion h
  · rw [if_neg hp] at h
    by_cases hr : req < PLL_FOUTPOSTDIV_MIN ∨ req > PLL_FOUTPOSTDIV_MAX
    · rw [if_pos hr] at h
      exact SolveRes.noConfusion h
    · rw [if_neg hr] at h
      have hloop : refdivLoop req prate ⟨0, 0, 0, 0, 0⟩ (List.range' REFDIV_MIN 63) =
          bestFold req ⟨0, 0, 0, 0, 0⟩ (pllSteps req prate) := by
        rw [refdivLoop_eq_bestFold]
        rfl
      rw [hloop] at h
      rcases hres : bestFold req ⟨0, 0, 0, 0, 0⟩ (pllSteps req prate) with _ | b0 | b0 <;>
        rw [hres] at h <;> simp only at h
      · exact SolveRes.noConfusion h
      · have hb : b0 = b := SolveRes.found.inj h
        rw [pllCandidates_eq, ← hb]
        exact (bestFold_exact_freq req (pllSteps req prate) ⟨0, 0, 0, 0, 0⟩ b0 hres).2
      · by_cases hz : b0.freq = 0
        · rw [if_pos hz] at h
          exact SolveRes.noConfusion h
        · rw [if_neg hz] at h
          have hb : b0 = b := SolveRes.found.inj h
          rw [pllCandidates_eq, ← hb]
          rcases bestFold_mem req (pllSteps req prate) ⟨0, 0, 0, 0, 0⟩ b0 (Or.inr hres) with h' | h'
          · exfalso
            apply hz
            rw [h']
          · exact h'

/-- Executable crash-freedom check with shallow recursion: the 63-entry
outer `all` short-circuits on the stability guard exactly like the
outer loop, and the 305-entry inner `all` checks that no step is a
crash. -/
def pllCrashFree (req prate : Nat) : Bool :=
  (List.range' REFDIV_MIN 63).all (fun refdiv =>
    decide (prate / refdiv ≤ 10) ||
      (List.range' FBDIV_MIN 305).all (fun fbdiv =>
        pllStepOf req prate refdiv fbdiv != PllStep.crash))

theorem pllSteps_crash_not_mem (req prate : Nat)
    (h : pllCrashFree req prate = true) :
    PllStep.crash ∉ pllSteps req prate := by
  intro hmem
  simp only [pllSteps, List.mem_flatMap] at hmem
  obtain ⟨refdiv, hr, hstep⟩ := hmem
  have hall := List.all_eq_true.mp h refdiv hr
  by_cases hg : prate / refdiv ≤ 10
  · rw [if_pos hg] at hstep
    exact List.not_mem_nil _ hstep
  · rw [if_neg hg] at hstep
    simp only [List.mem_map] at hstep
    obtain ⟨fbdiv, hf, hcrash⟩ := hstep
    rw [Bool.or_eq_true, decide_eq_true_eq] at hall
    rcases hall with hall | hall
    · exact hg hall
    · have := List.all_eq_true.mp hall fbdiv hf
      rw [hcrash] at this
      simp at this

/-- C1 witness: at the concrete target 16326530 Hz the search is
crash-free, the solver returns the parameter set
(refdiv 1, fbdiv 32, postdiv1 7, postdiv2 7) with freq 16326530, and
that set is an admitted candidate minimizing the distance to the
target. -/
theorem C1_solver_amended_witness :
    sg2042_get_pll_ctl_setting 16326530 PLL_FREF_SG2042 =
        .found ⟨16326530, 32, 7, 7, 1⟩ ∧
      (PllCtrl.mk 16326530 32 7 7 1) ∈ pllCandidates 16326530 PLL_FREF_SG2042 ∧
      ∀ c ∈ pllCandidates 16326530 PLL_FREF_SG2042,
        absDiff (PllCtrl.mk 16326530 32 7 7 1).freq 16326530 ≤ absDiff c.freq 16326530 := by
  have hfound : sg2042_get_pll_ctl_setting 16326530 PLL_FREF_SG2042 =
      .found ⟨16326530, 32, 7, 7, 1⟩ := by decide
  have h := (C1_solver_amended 16326530 (by decide) (by decide)
      (pllSteps_crash_not_mem 16326530 PLL_FREF_SG2042 (by decide))).1
    ⟨16326530, 32, 7, 7, 1⟩ hfound
  exact ⟨hfound, h.1, h.2⟩

/-! ## Claim C5: the refdiv stability rejection -/

/-- The C5 claim: no returned parameter set may use a refdiv whose
reference input `parent_rate / refdiv` is at or below the 10 MHz
stability floor (such refdivs are said to be rejected before any fbdiv
is tried). -/
def pllClaimC5 : Prop :=
  ∀ req b, sg2042_get_pll_ctl_setting req PLL_FREF_SG2042 = .found b →
    10 * MHZ < PLL_FREF_SG2042 / b.refdiv

/-- C5 counterexample: at target 16 MHz the solver returns refdiv = 3,
whose reference input 25 MHz / 3 = 8333333 Hz is well below 10 MHz; the
code's guard only rejects `parent_rate / refdiv <= 10` (10 Hz, not
10 MHz). -/
theorem C5_stability_counterexample : ¬ pllClaimC5 := by
  intro h
  have := h 16000000 ⟨16326530, 96, 7, 7, 3⟩ (by decide)
  revert this
  decide

/-- C5 amended: the outer loop's guard threshold is the literal 10 (Hz),
not 10 MHz: a refdiv value with `parent_rate / refdiv <= 10` is skipped
before the fbdiv loop is entered, and every returned parameter set
satisfies `parent_rate / refdiv > 10` only. -/
theorem C5_stability_amended (req prate refdiv : Nat) (best : PllCtrl)
    (rest : List Nat) (hskip : prate / refdiv ≤ 10) :
    refdivLoop req prate best (refdiv :: rest) = refdivLoop req prate best rest ∧
      ∀ b, sg2042_get_pll_ctl_setting req prate = .found b → 10 < prate / b.refdiv := by
  constructor
  · rw [refdivLoop, if_pos hskip]
  · intro b hb
    exact pllCandidates_refdiv_guard req prate b (solve_found_mem req prate b hb)

/-- C5 witness: refdiv = 2500000 at the 25 MHz reference is skipped
(25 MHz / 2500000 = 10 <= 10), and the parameter set the solver returns
for target 16326530 Hz satisfies the 10 Hz guard. -/
theorem C5_stability_amended_witness :
    refdivLoop 16326530 PLL_FREF_SG2042 ⟨0, 0, 0, 0, 0⟩ [2500000] =
        refdivLoop 16326530 PLL_FREF_SG2042 ⟨0, 0, 0, 0, 0⟩ [] ∧
      ∀ b, sg2042_get_pll_ctl_setting 16326530 PLL_FREF_SG2042 = .found b →
        10 < PLL_FREF_SG2042 / b.refdiv :=
  C5_stability_amended 16326530 PLL_FREF_SG2042 2500000 ⟨0, 0, 0, 0, 0⟩ [] (by decide)

/-- C4: the claimed safety property fails — at target rate 1 GHz (within
the output window) with the fixed 25 MHz reference, the very first
admitted iteration (refdiv = 1, fbdiv = 32, foutvco = 800 MHz) derives
`postdiv_product = 0 <= 7`, so the derivation returns success with
postdiv1 = 0, postdiv2 = 1, and the caller's final division
`foutvco / (postdiv1 * postdiv2)` divides by zero (the embedding
reports `divByZero`). -/
theorem C4_postdiv_zero_divisor :
    sg2042_pll_get_postdiv_1_2 1000000000 PLL_FREF_SG2042 32 1 = some (0, 1) ∧
      (0 : Nat) * 1 = 0 ∧
      pllStepOf 1000000000 PLL_FREF_SG2042 1 32 = .crash ∧
      sg2042_get_pll_ctl_setting 1000000000 PLL_FREF_SG2042 = .divByZero := by
  refine ⟨by decide, rfl, by decide, by decide⟩

/-- C6: the VCO computation `foutvco = parent_rate * fbdiv` (u64
intermediate, modelled by the explicit `% 2^64`) followed by
`do_div(foutvco, refdiv)` is exact for every parent rate representable
in 32 bits and every fbdiv up to FBDIV_MAX: the 64-bit product does not
wrap, so the computed value equals the mathematical floor quotient
`parent_rate * fbdiv / refdiv`. -/
theorem C6_vco_64bit_exact (prate fbdiv refdiv : Nat)
    (hp : prate < 2 ^ 32) (hf : fbdiv ≤ MANGO_FBDIV_MAX) :
    prate * fbdiv % U64_MOD = prate * fbdiv ∧
      prate * fbdiv % U64_MOD / refdiv = prate * fbdiv / refdiv := by
  have hfb : fbdiv < 2 ^ 9 := by
    have hm : MANGO_FBDIV_MAX = 321 := rfl
    have h9 : (2 : Nat) ^ 9 = 512 := by norm_num
    omega
  have hlt : prate * fbdiv < U64_MOD := by
    have h1 : prate * fbdiv ≤ prate * 2 ^ 9 :=
      Nat.mul_le_mul_left prate (Nat.le_of_lt hfb)
    have h2 : prate * 2 ^ 9 < 2 ^ 32 * 2 ^ 9 :=
      Nat.mul_lt_mul_of_lt_of_le hp (Nat.le_refl _) (by norm_num)
    have h3 : (2 : Nat) ^ 32 * 2 ^ 9 < 2 ^ 64 := by norm_num
    have h4 : U64_MOD = 2 ^ 64 := rfl
    omega
  have hmod : prate * fbdiv % U64_MOD = prate * fbdiv := Nat.mod_eq_of_lt hlt
  exact ⟨hmod, by rw [hmod]⟩

theorem postdiv1_2_bounds : ∀ e ∈ postdiv1_2, 8 ≤ e.2.2 ∧ e.2.2 ≤ 49 := by
  decide

theorem postdiv_lookup (d1 d2 pr : Nat) (hmem : (d1, d2, pr) ∈ postdiv1_2) :
    postdiv1_2.find? (fun e => decide (pr ≤ e.2.2)) = some (d1, d2, pr) := by
  fin_cases hmem <;> decide

/-- C7: the three regimes of the postdiv derivation, in terms of the
derived product `tmp0 = prate / refdiv * fbdiv / rate`: a product in
1..7 yields `(tmp0, 1)`; a product equal to some table entry's product
yields that entry's divider pair swapped (postdiv1 from the entry's
second element, postdiv2 from its first); a product above 49 yields the
no-solution error. -/
theorem C7_postdiv_table_cases (rate prate fbdiv refdiv : Nat) :
    (prate / refdiv * fbdiv % U64_MOD / rate ≤ 7 →
        sg2042_pll_get_postdiv_1_2 rate prate fbdiv refdiv =
          some (prate / refdiv * fbdiv % U64_MOD / rate, 1)) ∧
      (∀ d1 d2 pr, (d1, d2, pr) ∈ postdiv1_2 →
        prate / refdiv * fbdiv % U64_MOD / rate = pr →
        sg2042_pll_get_postdiv_1_2 rate prate fbdiv refdiv = some (d2, d1)) ∧
      (49 < prate / refdiv * fbdiv % U64_MOD / rate →
        sg2042_pll_get_postdiv_1_2 rate prate fbdiv refdiv = none) := by
  refine ⟨?_, ?_, ?_⟩
  · intro h7
    rw [sg2042_pll_get_postdiv_1_2]
    simp only [if_pos h7]
  · intro d1 d2 pr hmem he
    have h8 : 8 ≤ pr := (postdiv1_2_bounds (d1, d2, pr) hmem).1
    rw [sg2042_pll_get_postdiv_1_2]
    simp only [he, if_neg (by omega : ¬ pr ≤ 7)]
    rw [postdiv_lookup d1 d2 pr hmem]
  · intro h49
    rw [sg2042_pll_get_postdiv_1_2]
    simp only [if_neg (by omega : ¬ prate / refdiv * fbdiv % U64_MOD / rate ≤ 7)]
    have hnone : postdiv1_2.find?
        (fun e => decide (prate / refdiv * fbdiv % U64_MOD / rate ≤ e.2.2)) = none := by
      rw [List.find?_eq_none]
      intro e hmem
      have := (postdiv1_2_bounds e hmem).2
      simp only [decide_eq_true_eq]
      omega
    rw [hnone]

/-- C7 witness: the three regimes at concrete inputs — product 5 gives
(5, 1); product 10 matches table entry (2, 5, 10) and gives (5, 2);
product 50 exceeds the table and gives the error. -/
theorem C7_postdiv_table_cases_witness :
    sg2042_pll_get_postdiv_1_2 100 500 1 1 = some (5, 1) ∧
      sg2042_pll_get_postdiv_1_2 100 1000 1 1 = some (5, 2) ∧
      sg2042_pll_get_postdiv_1_2 100 5000 1 1 = none := by
  refine ⟨?_, ?_, ?_⟩
  · exact (C7_postdiv_table_cases 100 500 1 1).1 (by decide)
  · exact (C7_postdiv_table_cases 100 1000 1 1).2.1 2 5 10 (by decide) (by decide)
  · exact (C7_postdiv_table_cases 100 5000 1 1).2.2 (by decide)

/-! ## The older `mango` solver revision in `clk.c`

`__mango_get_pll_ctl_setting` differs from the SG2042 revision: `fref`
is truncated to 32 bits (`unsigned int fref = parent_rate`), the VCO
product `fref * fbdiv / refdiv` is computed entirely in 32-bit
arithmetic (so it wraps modulo 2^32), the admission window is
16 MHz..3200 MHz, the stability test `fref / refdiv < 10` sits inside
the inner loop's admission condition, the loops run refdiv 1..64 and
fbdiv 16..321, and the function performs no input validation and no
final `best.freq == 0` check (its callers test `freq` themselves). -/

def mangoFbdivLoop (req fref refdiv : Nat) (best : PllCtrl) : List Nat → LoopRes
  | [] => .cont best
  | fbdiv :: rest =>
    let foutvco := fref * fbdiv % U32_MOD / refdiv
    if foutvco < PLL_FREQ_MIN ∨ foutvco > PLL_FREQ_MAX ∨ fref / refdiv < 10 then
      mangoFbdivLoop req fref refdiv best rest
    else
      match sg2042_pll_get_postdiv_1_2 req fref fbdiv refdiv with
      | none => mangoFbdivLoop req fref refdiv best rest
      | some (p1, p2) =>
        if p1 * p2 = 0 then .crash
        else
          let tmp := foutvco / (p1 * p2)
          if absDiff tmp req < absDiff best.freq req then
            if tmp = req then .exact ⟨tmp, fbdiv, p1, p2, refdiv⟩
            else mangoFbdivLoop req fref refdiv ⟨tmp, fbdiv, p1, p2, refdiv⟩ rest
          else mangoFbdivLoop req fref refdiv best rest

def mangoRefdivLoop (req fref : Nat) : PllCtrl → List Nat → LoopRes
  | best, [] => .cont best
  | best, refdiv :: rest =>
    match mangoFbdivLoop req fref refdiv best (List.range' FBDIV_MIN 306) with
    | .crash => .crash
    | .exact b => .exact b
    | .cont b => mangoRefdivLoop req fref b rest

/-- Source `__mango_get_pll_ctl_setting`: always "succeeds" (returns 0 in C);
the zero-initialized `best` is simply left untouched when no candidate
is admitted.  A division by zero (zero postdiv product) is surfaced as
`Except.error`. -/
def mango_get_pll_ctl_setting (req_rate parent_rate : Nat) : Except Unit PllCtrl :=
  let fref := parent_rate % U32_MOD
  match mangoRefdivLoop req_rate fref ⟨0, 0, 0, 0, 0⟩ (List.range' REFDIV_MIN 64) with
  | .crash => .error ()
  | .exact b => .ok b
  | .cont b => .ok b

/-! ## `mango_clk_pll_set_rate`

The PLL register state visible to the function is its enable bit and
its control word.  The function disables the PLL, reads the control
word, runs the solver, and only when a setting with non-zero frequency
was found writes the encoded word and re-enables; the event trace
records the register operations in program order. -/

structure PllHw where
  enabled : Bool
  ctrl : Nat
deriving DecidableEq

inductive PllEvent where
  | disable
  | readCtrl
  | writeCtrl (v : Nat)
  | enable
deriving DecidableEq

def mango_clk_pll_set_rate (hw : PllHw) (rate parent_rate : Nat) :
    Except Unit (PllHw × List PllEvent) :=
  match mango_get_pll_ctl_setting rate parent_rate with
  | .error e => .error e
  | .ok best =>
    if best.freq = 0 then
      .ok (⟨false, hw.ctrl⟩, [.disable, .readCtrl])
    else
      let v := ENCODE_PLL_CTRL best.fbdiv best.postdiv1 best.postdiv2 best.refdiv
      .ok (⟨true, v⟩, [.disable, .readCtrl, .writeCtrl v, .enable])

/-- C10: on every set_rate call the disable is the first register
operation, before the parameter search; when the search finds no
admissible setting (`best.freq = 0`) the control word is never written,
the PLL is not re-enabled, and the function returns with the PLL
disabled and the old control word in place. -/
theorem C10_set_rate_nosolution (hw : PllHw) (rate parent_rate : Nat)
    (best : PllCtrl)
    (hsolve : mango_get_pll_ctl_setting rate parent_rate = .ok best)
    (hfreq : best.freq = 0) :
    ∃ st tr, mango_clk_pll_set_rate hw rate parent_rate = .ok (st, tr) ∧
      st.enabled = false ∧ st.ctrl = hw.ctrl ∧
      tr.head? = some .disable ∧
      (∀ v, PllEvent.writeCtrl v ∉ tr) ∧ PllEvent.enable ∉ tr := by
  refine ⟨⟨false, hw.ctrl⟩, [.disable, .readCtrl], ?_, rfl, rfl, rfl, ?_, ?_⟩
  · rw [mango_clk_pll_set_rate, hsolve]
    simp only [hfreq, if_true]
  · intro v hv
    rcases List.mem_cons.mp hv with h | h
    · exact PllEvent.noConfusion h
    · rcases List.mem_cons.mp h with h' | h'
      · exact PllEvent.noConfusion h'
      · exact List.not_mem_nil _ h'
  · intro hv
    rcases List.mem_cons.mp hv with h | h
    · exact PllEvent.noConfusion h
    · rcases List.mem_cons.mp h with h' | h'
      · exact PllEvent.noConfusion h'
      · exact List.not_mem_nil _ h'

/-- C10 witness: with a 5 Hz parent rate no candidate is ever admitted
(every foutvco is far below 16 MHz), the solver leaves the
zero-initialized best untouched, and set_rate leaves the PLL disabled
with its old control word 777. -/
theorem C10_set_rate_nosolution_witness :
    ∃ st tr, mango_clk_pll_set_rate ⟨true, 777⟩ 1000 5 = .ok (st, tr) ∧
      st.enabled = false ∧ st.ctrl = (777 : Nat) ∧
      tr.head? = some .disable ∧
      (∀ v, PllEvent.writeCtrl v ∉ tr) ∧ PllEvent.enable ∉ tr :=
  C10_set_rate_nosolution ⟨true, 777⟩ 1000 5 ⟨0, 0, 0, 0, 0⟩ (by rfl) rfl

/-- C6 witness: at parent rate 25 MHz, fbdiv = 320, refdiv = 3 the u64
product does not wrap and the computed foutvco is the exact quotient. -/
theorem C6_vco_64bit_exact_witness :
    25000000 * 320 % U64_MOD = 25000000 * 320 ∧
      25000000 * 320 % U64_MOD / 3 = 25000000 * 320 / 3 :=
  C6_vco_64bit_exact 25000000 320 3 (by decide) (by decide)

/-! ## The MSI dispatch routine (`cdns_handle_msi_irq`)

The state visible to the handler: the shared status region (one u32 per
slot, read with `readl` and cleared with `writel 0`), the virtual-IRQ
mapping `irq_find_mapping` (0 means unmapped) and `num_applied_vecs`.
With `MAX_MSI_IRQS_PER_CTRL = 1`, the `find_next_bit(&val, 1, pos)`
loop raises the slot's IRQ exactly once when bit 0 of the entry is set
and not at all otherwise.  The first pass walks slots 0..num, raising
and then zeroing each non-zero entry; if no entry was non-zero, a
fallback pass raises every mapped slot in 0..num. -/

structure MsiState where
  entries : Nat → Nat
  mapv : Nat → Nat
  num : Nat

def msiWrite (e : Nat → Nat) (i : Nat) : Nat → Nat :=
  fun j => if j = i then 0 else e j

/-- The first pass, processing `fuel` slots starting at index `i`:
returns the updated region, the raised IRQs in program order, and
whether any entry was found non-zero (`ret == IRQ_HANDLED`). -/
def msiPass1 (mapv : Nat → Nat) : (Nat → Nat) → Nat → Nat →
    ((Nat → Nat) × List Nat × Bool)
  | e, _, 0 => (e, [], false)
  | e, i, fuel + 1 =>
    let status := e i
    if status = 0 then msiPass1 mapv e (i + 1) fuel
    else
      let r := msiPass1 mapv (msiWrite e i) (i + 1) fuel
      (r.1, (if status % 2 = 1 then [mapv i] else []) ++ r.2.1, true)

def cdns_handle_msi_irq (s : MsiState) : (Nat → Nat) × List Nat × Bool :=
  let p := msiPass1 s.mapv s.entries 0 (s.num + 1)
  if p.2.2 then p
  else
    (p.1,
     p.2.1 ++ (List.range' 0 (s.num + 1)).filterMap
       (fun i => if s.mapv i = 0 then none else some (s.mapv i)),
     true)

/-- Characterization of the first pass: the processed window is zeroed,
entries outside it are untouched, the raised list collects `mapv j` for
exactly the odd entries of the window (in ascending slot order), and
the handled flag records whether any window entry was non-zero. -/
theorem msiPass1_spec (mapv : Nat → Nat) :
    ∀ (fuel i : Nat) (e : Nat → Nat),
      (∀ j, (msiPass1 mapv e i fuel).1 j =
          if i ≤ j ∧ j < i + fuel then 0 else e j) ∧
        (msiPass1 mapv e i fuel).2.1 =
          (List.range' i fuel).filterMap
            (fun j => if e j % 2 = 1 then some (mapv j) else none) ∧
        (msiPass1 mapv e i fuel).2.2 =
          (List.range' i fuel).any (fun j => e j != 0) := by
  intro fuel
  induction fuel with
  | zero =>
    intro i e
    refine ⟨?_, rfl, rfl⟩
    intro j
    rw [msiPass1]
    have h : ¬ (i ≤ j ∧ j < i + 0) := by omega
    rw [if_neg h]
  | succ f ih =>
    intro i e
    rw [msiPass1]
    by_cases h0 : e i = 0
    · rw [if_pos h0]
      obtain ⟨ih1, ih2, ih3⟩ := ih (i + 1) e
      refine ⟨?_, ?_, ?_⟩
      · intro j
        rw [ih1 j]
        by_cases hj1 : i + 1 ≤ j ∧ j < i + 1 + f
        · rw [if_pos hj1, if_pos (by omega : i ≤ j ∧ j < i + (f + 1))]
        · rw [if_neg hj1]
          by_cases hj2 : j = i
          · rw [hj2, if_pos (by omega : i ≤ i ∧ i < i + (f + 1))]
            exact h0
          · rw [if_neg (by omega : ¬ (i ≤ j ∧ j < i + (f + 1)))]
      · rw [List.range'_succ, List.filterMap_cons, ih2]
        have hne : ¬ e i % 2 = 1 := by omega
        rw [if_neg hne]
      · rw [List.range'_succ, List.any_cons, ih3]
        have hz : (e i != 0) = false := by
          simp [h0]
        rw [hz, Bool.false_or]
    · rw [if_neg h0]
      simp only
      obtain ⟨ih1, ih2, ih3⟩ := ih (i + 1) (msiWrite e i)
      have hcongr : (List.range' (i + 1) f).filterMap
          (fun j => if msiWrite e i j % 2 = 1 then some (mapv j) else none) =
          (List.range' (i + 1) f).filterMap
          (fun j => if e j % 2 = 1 then some (mapv j) else none) := by
        apply List.filterMap_congr
        intro j hj
        have hji : j ≠ i := by
          have := List.mem_range'_1.mp hj
          omega
        rw [msiWrite, if_neg hji]
      refine ⟨?_, ?_, ?_⟩
      · intro j
        rw [ih1 j]
        unfold msiWrite
        by_cases hj1 : i + 1 ≤ j ∧ j < i + 1 + f
        · rw [if_pos hj1, if_pos (by omega : i ≤ j ∧ j < i + (f + 1))]
        · rw [if_neg hj1]
          by_cases hj2 : j = i
          · rw [if_pos hj2, if_pos (by omega : i ≤ j ∧ j < i + (f + 1))]
          · rw [if_neg hj2, if_neg (by omega : ¬ (i ≤ j ∧ j < i + (f + 1)))]
      · rw [List.range'_succ, List.filterMap_cons, ih2, hcongr]
        by_cases hodd : e i % 2 = 1
        · rw [if_pos hodd, if_pos hodd]
          rfl
        · rw [if_neg hodd, if_neg hodd]
          rfl
      · rw [List.range'_succ, List.any_cons]
        have ht : (e i != 0) = true := by
          simp [h0]
        rw [ht, Bool.true_or]

/-- C2 amended: the dispatch routine zeroes every entry of the window
0..num and leaves entries beyond it untouched; it raises (in slot
order) the mapped IRQ of exactly those slots whose entry has bit 0 set
(with `MAX_MSI_IRQS_PER_CTRL = 1`, `find_next_bit` only ever inspects
bit 0, so a non-zero even entry — e.g. 4 — is cleared without raising
anything); the fallback pass fires only when every window entry is
zero, raising every mapped slot of the window; and the routine always
reports the interrupt handled. -/
theorem C2_dispatch_amended (s : MsiState) :
    (∀ j, (cdns_handle_msi_irq s).1 j = if j ≤ s.num then 0 else s.entries j) ∧
      (cdns_handle_msi_irq s).2.1 =
        (if (List.range' 0 (s.num + 1)).any (fun j => s.entries j != 0) then
          (List.range' 0 (s.num + 1)).filterMap
            (fun j => if s.entries j % 2 = 1 then some (s.mapv j) else none)
        else
          (List.range' 0 (s.num + 1)).filterMap
            (fun i => if s.mapv i = 0 then none else some (s.mapv i))) ∧
      (cdns_handle_msi_irq s).2.2 = true := by
  obtain ⟨h1, h2, h3⟩ := msiPass1_spec s.mapv (s.num + 1) 0 s.entries
  by_cases hany : ((List.range' 0 (s.num + 1)).any (fun j => s.entries j != 0)) = true
  · have hp : (msiPass1 s.mapv s.entries 0 (s.num + 1)).2.2 = true := by
      rw [h3]
      exact hany
    have hd : cdns_handle_msi_irq s = msiPass1 s.mapv s.entries 0 (s.num + 1) := by
      rw [cdns_handle_msi_irq]
      simp only [hp, if_true]
    refine ⟨?_, ?_, ?_⟩
    · intro j
      rw [hd, h1 j]
      by_cases hj : j ≤ s.num
      · rw [if_pos (by omega : 0 ≤ j ∧ j < 0 + (s.num + 1)), if_pos hj]
      · rw [if_neg (by omega : ¬ (0 ≤ j ∧ j < 0 + (s.num + 1))), if_neg hj]
    · rw [hd, h2, if_pos hany]
    · rw [hd, hp]
  · have hanyf : ((List.range' 0 (s.num + 1)).any (fun j => s.entries j != 0)) = false :=
      Bool.eq_false_iff.mpr hany
    have hp : (msiPass1 s.mapv s.entries 0 (s.num + 1)).2.2 = false := by
      rw [h3]
      exact hanyf
    have hzero : ∀ j ∈ List.range' 0 (s.num + 1), s.entries j = 0 := by
      intro j hj
      have := List.any_eq_false.mp hanyf j hj
      simpa using this
    have hodd : (msiPass1 s.mapv s.entries 0 (s.num + 1)).2.1 = [] := by
      rw [h2, List.filterMap_eq_nil_iff]
      intro j hj
      rw [hzero j hj]
      simp
    have hd : cdns_handle_msi_irq s =
        ((msiPass1 s.mapv s.entries 0 (s.num + 1)).1,
         (msiPass1 s.mapv s.entries 0 (s.num + 1)).2.1 ++
           (List.range' 0 (s.num + 1)).filterMap
             (fun i => if s.mapv i = 0 then none else some (s.mapv i)),
         true) := by
      rw [cdns_handle_msi_irq]
      simp only [hp]
      rfl
    refine ⟨?_, ?_, ?_⟩
    · intro j
      rw [hd]
      simp only
      rw [h1 j]
      by_cases hj : j ≤ s.num
      · rw [if_pos (by omega : 0 ≤ j ∧ j < 0 + (s.num + 1)), if_pos hj]
      · rw [if_neg (by omega : ¬ (0 ≤ j ∧ j < 0 + (s.num + 1))), if_neg hj]
    · rw [hd]
      simp only
      rw [hodd, List.nil_append, if_neg hany]
    · rw [hd]

/-- The C2 claim at one state: every slot of the window with a non-zero
entry gets exactly its mapped IRQ raised and its entry zeroed (others
untouched), and the fallback fires exactly when every window entry was
zero. -/
def msiClaimC2 (s : MsiState) : Prop :=
  ((∃ i, i ≤ s.num ∧ s.entries i ≠ 0) →
    (cdns_handle_msi_irq s).2.1 =
      (List.range' 0 (s.num + 1)).filterMap
        (fun i => if s.entries i ≠ 0 then some (s.mapv i) else none) ∧
    (∀ j, (cdns_handle_msi_irq s).1 j =
      if j ≤ s.num ∧ s.entries j ≠ 0 then 0 else s.entries j)) ∧
  ((∀ i, i ≤ s.num → s.entries i = 0) →
    (cdns_handle_msi_irq s).2.1 =
      (List.range' 0 (s.num + 1)).filterMap
        (fun i => if s.mapv i = 0 then none else some (s.mapv i)))

/-- The counterexample state: one applied vector, slot 0 mapped to
virtual IRQ 7, and the shared-status entry of slot 0 holding the
non-zero value 4 (bit 0 clear). -/
def exMsiState : MsiState :=
  ⟨fun i => if i = 0 then 4 else 0, fun i => if i = 0 then 7 else 0, 0⟩

/-- C2 counterexample: on a region whose slot-0 entry is 4 (non-zero,
bit 0 clear) the dispatch routine raises nothing at all — it zeroes the
entry and reports handled — whereas the claim requires the virtual IRQ
7 mapped to slot 0 to be raised. -/
theorem C2_dispatch_counterexample : ¬ msiClaimC2 exMsiState := by
  intro h
  have h1 := (h.1 ⟨0, Nat.le_refl 0, by decide⟩).1
  exact absurd h1 (by decide)

/-! ## The MSI hardware-IRQ bitmap allocator

`cdns_pcie_irq_domain_alloc` / `cdns_pcie_irq_domain_free` are in the
sources; the kernel library primitives they call
(`bitmap_find_free_region`, `bitmap_release_region`, `order_base_2`)
are not, and are modelled from the spec.  The bitmap is a predicate on
slot indices (`true` = in use); `num_vectors` bounds the search. -/

/-- Modelled from the spec: `order_base_2(n)` (kernel lib, not under
`src/`) is the allocation order, the ceiling of log2 n — the smallest
`o` with `n <= 2^o`. -/
def order_base_2 (n : Nat) : Nat :=
  match (List.range n).find? (fun o => decide (n ≤ 2 ^ o)) with
  | some o => o
  | none => 0

/-- Modelled from the spec: `bitmap_find_free_region` (kernel lib, not
under `src/`) scans the power-of-two-aligned positions
`0, 2^order, 2*2^order, ...` below `bits` first-fit for a region of
`2^order` free bits and returns its base. -/
def bitmap_find_free_region (bm : Nat → Bool) (bits order : Nat) : Option Nat :=
  ((List.range (bits / 2 ^ order)).map (fun k => k * 2 ^ order)).find?
    (fun pos => (List.range (2 ^ order)).all (fun j => !bm (pos + j)))

/-- Modelled from the spec: marking a found region allocated (the
second half of `bitmap_find_free_region`). -/
def bitmap_allocate_region (bm : Nat → Bool) (pos n : Nat) : Nat → Bool :=
  fun j => if pos ≤ j ∧ j < pos + n then true else bm j

/-- Modelled from the spec: `bitmap_release_region` (kernel lib, not
under `src/`) clears the `2^order` bits starting at `pos`. -/
def bitmap_release_region (bm : Nat → Bool) (pos n : Nat) : Nat → Bool :=
  fun j => if pos ≤ j ∧ j < pos + n then false else bm j

/-- Source `cdns_pcie_irq_domain_alloc`: find a free aligned region of order
`order_base_2 nr_irqs`; on failure return `-ENOSPC` (-28) with the
bitmap untouched, on success mark the region in use and hand out the
base slot as the hardware IRQ number. -/
def cdns_pcie_irq_domain_alloc (bm : Nat → Bool) (num_vectors nr_irqs : Nat) :
    Except Int Nat × (Nat → Bool) :=
  match bitmap_find_free_region bm num_vectors (order_base_2 nr_irqs) with
  | none => (.error (-28), bm)
  | some b => (.ok b, bitmap_allocate_region bm b (2 ^ order_base_2 nr_irqs))

/-- Source `cdns_pcie_irq_domain_free`: release the region of order
`order_base_2 nr_irqs` based at the freed interrupt's hwirq. -/
def cdns_pcie_irq_domain_free (bm : Nat → Bool) (hwirq nr_irqs : Nat) :
    Nat → Bool :=
  bitmap_release_region bm hwirq (2 ^ order_base_2 nr_irqs)

/-- C8: when the bitmap has no free contiguous power-of-two-aligned
region of the requested order — no aligned base position below
`num_vectors` has all `2^order` bits free — the allocation returns
`-ENOSPC` and the bitmap is returned unchanged: no slot is marked
allocated, so there is no partial allocation. -/
theorem C8_alloc_enospc (bm : Nat → Bool) (num_vectors nr_irqs : Nat)
    (h : ∀ k < num_vectors / 2 ^ order_base_2 nr_irqs,
      ∃ j < 2 ^ order_base_2 nr_irqs, bm (k * 2 ^ order_base_2 nr_irqs + j) = true) :
    cdns_pcie_irq_domain_alloc bm num_vectors nr_irqs = (.error (-28), bm) := by
  have hfind : bitmap_find_free_region bm num_vectors (order_base_2 nr_irqs) = none := by
    rw [bitmap_find_free_region, List.find?_eq_none]
    intro pos hpos
    simp only [List.mem_map, List.mem_range] at hpos
    obtain ⟨k, hk, rfl⟩ := hpos
    obtain ⟨j, hj, hbit⟩ := h k hk
    simp only [List.all_eq_true, Bool.not_eq_true']
    intro hall
    have := hall j (List.mem_range.mpr hj)
    rw [hbit] at this
    exact Bool.noConfusion this
  rw [cdns_pcie_irq_domain_alloc, hfind]

/-- The fragmented 512-slot bitmap of the claim's example: every slot is
in use except the five contiguous slots 100..104. -/
def exBitmap : Nat → Bool :=
  fun j => !(decide (100 ≤ j ∧ j < 105))

/-- C8 witness: requesting 8 vectors (order 3) on the fragmented bitmap
with only 5 contiguous free slots returns `-ENOSPC` and leaves the
bitmap unchanged. -/
theorem C8_alloc_enospc_witness :
    cdns_pcie_irq_domain_alloc exBitmap 512 8 = (.error (-28), exBitmap) :=
  C8_alloc_enospc exBitmap 512 8 (by decide)

/-- C9: whenever an allocation succeeds with base slot `b`, immediately
freeing `(b, n)` restores the bitmap to exactly its prior state. -/
theorem C9_alloc_free_roundtrip (bm : Nat → Bool) (num_vectors nr_irqs b : Nat)
    (bm' : Nat → Bool)
    (h : cdns_pcie_irq_domain_alloc bm num_vectors nr_irqs = (.ok b, bm')) :
    cdns_pcie_irq_domain_free bm' b nr_irqs = bm := by
  rcases hfind : bitmap_find_free_region bm num_vectors (order_base_2 nr_irqs) with _ | pos
  · rw [cdns_pcie_irq_domain_alloc, hfind] at h
    simp only [Prod.mk.injEq] at h
    exact absurd h.1 (by intro hx; exact Except.noConfusion hx)
  · rw [cdns_pcie_irq_domain_alloc, hfind] at h
    simp only [Prod.mk.injEq] at h
    obtain ⟨hob, hbm⟩ := h
    have hpos : pos = b := Except.ok.inj hob
    subst hpos
    have hfree : ∀ j < 2 ^ order_base_2 nr_irqs, bm (pos + j) = false := by
      have hp := List.find?_some hfind
      simp only [List.all_eq_true, Bool.not_eq_true'] at hp
      intro j hj
      exact hp j (List.mem_range.mpr hj)
    funext j
    rw [cdns_pcie_irq_domain_free, bitmap_release_region, ← hbm]
    by_cases hj : pos ≤ j ∧ j < pos + 2 ^ order_base_2 nr_irqs
    · rw [if_pos hj]
      have hv := hfree (j - pos) (by omega)
      have hji : pos + (j - pos) = j := by omega
      rw [hji] at hv
      exact hv.symm
    · rw [if_neg hj]
      simp only [bitmap_allocate_region]
      rw [if_neg hj]

/-- C9 witness: allocating 8 vectors on the empty bitmap yields base
slot 0, and freeing it restores the all-free bitmap. -/
theorem C9_alloc_free_roundtrip_witness :
    cdns_pcie_irq_domain_free
        (bitmap_allocate_region (fun _ => false) 0 (2 ^ order_base_2 8)) 0 8 =
      (fun _ => false) :=
  C9_alloc_free_roundtrip (fun _ => false) 512 8 0
    (bitmap_allocate_region (fun _ => false) 0 (2 ^ order_base_2 8)) (by rfl)
